import Mathlib

/-!
Verification of the text-transform layer of the encryption-messenger repository.

JavaScript strings are modelled as lists of UTF-16 code units (`List Nat`,
each element `< 65536`).  JavaScript's `%` on integral numbers is truncated
remainder, modelled by `Int.tmod`; `String.fromCharCode` applies `ToUint16`,
modelled by `toUint16`.
-/

namespace Messenger

/-- JS `ToUint16` as applied by `String.fromCharCode`: reduce mod 2^16. -/
def toUint16 (x : Int) : Nat := (x % 65536).toNat

/-- Character test of `char.match(/[a-z]/i)` on a single UTF-16 unit:
true exactly for ASCII letters. -/
def isAsciiLetter (c : Nat) : Bool :=
  (65 ≤ c && c ≤ 90) || (97 ≤ c && c ≤ 122)

/-- The `base` computed inside `encodeMessage`:
`code >= 65 && code <= 90 ? 65 : 97`. -/
def caesarBase (c : Nat) : Int := if 65 ≤ c ∧ c ≤ 90 then 65 else 97

/-- One character of `encodeMessage` (src/unnamed/part_003 lines 7-14):
`fromCharCode(((code - base + shift) % 26) + base)` with JS truncated `%`,
applied only to ASCII letters. -/
def caesarChar (shift : Int) (c : Nat) : Nat :=
  if isAsciiLetter c then
    toUint16 (((c : Int) - caesarBase c + shift).tmod 26 + caesarBase c)
  else c

/-- `encodeMessage` (src/unnamed/part_003 lines 4-16): Caesar cipher over
every character of the message. -/
def encodeMessage (message : List Nat) (shift : Int) : List Nat :=
  message.map (caesarChar shift)

/-- `decodeMessage` (src/unnamed/part_003 lines 18-20). -/
def decodeMessage (encodedMessage : List Nat) (shift : Int) : List Nat :=
  encodeMessage encodedMessage (26 - shift)

/-- The spec's description of one Caesar step for a nonnegative shift `k`:
each ASCII letter moves `k` positions later in the alphabet wrapping mod 26
with its case preserved, and every other character is unchanged.  Written
from the specification text, to be compared with `caesarChar`. -/
def specCaesarChar (k : Nat) (c : Nat) : Nat :=
  if 65 ≤ c ∧ c ≤ 90 then 65 + (c - 65 + k) % 26
  else if 97 ≤ c ∧ c ≤ 122 then 97 + (c - 97 + k) % 26
  else c

/-! ### Base64: the browser built-ins `btoa` and `atob` -/

/-- The base64 alphabet: the code point of the character for 6-bit value `v`. -/
def b64Char (v : Nat) : Nat :=
  if v < 26 then 65 + v
  else if v < 52 then 97 + (v - 26)
  else if v < 62 then 48 + (v - 52)
  else if v = 62 then 43
  else 47

/-- Inverse alphabet lookup used by `atob`: the 6-bit value of a character,
`none` when the character is not in the alphabet. -/
def b64Value (ch : Nat) : Option Nat :=
  (List.range 64).find? (fun v => b64Char v == ch)

/-- The 6-bit symbol stream of base64 encoding: bytes are consumed three at
a time; a final group of one byte yields two symbols, of two bytes three. -/
def b64Symbols : List Nat → List Nat
  | [] => []
  | [a] => [a / 4, a % 4 * 16]
  | [a, b] => [a / 4, a % 4 * 16 + b / 16, b % 16 * 4]
  | a :: b :: c :: rest =>
      a / 4 :: (a % 4 * 16 + b / 16) :: (b % 16 * 4 + c / 64) :: c % 64 :: b64Symbols rest

/-- Number of `=` padding characters `btoa` appends for an input of `n` bytes. -/
def b64PadLen (n : Nat) : Nat := (3 - n % 3) % 3

/-- JS `btoa`: throws `InvalidCharacterError` (modelled as `none`) when some
code unit of the argument exceeds 255, otherwise base64-encodes the bytes. -/
def btoa (s : List Nat) : Option (List Nat) :=
  if s.all (· < 256) then
    some ((b64Symbols s).map b64Char ++ List.replicate (b64PadLen s.length) 61)
  else none

/-- Reassemble bytes from a 6-bit symbol stream (the reverse of
`b64Symbols`); leftover bits of a final partial group are discarded, and a
single leftover symbol is a failure. -/
def b64Bytes : List Nat → Option (List Nat)
  | [] => some []
  | [_] => none
  | [a, b] => some [a * 4 + b / 16]
  | [a, b, c] => some [a * 4 + b / 16, b % 16 * 16 + c / 4]
  | a :: b :: c :: d :: rest =>
      (b64Bytes rest).map
        (fun r => (a * 4 + b / 16) :: (b % 16 * 16 + c / 4) :: (c % 4 * 64 + d) :: r)

/-- ASCII whitespace stripped by forgiving-base64 decoding. -/
def isB64Whitespace (c : Nat) : Bool :=
  c == 9 || c == 10 || c == 12 || c == 13 || c == 32

/-- Drop one trailing `=` when present. -/
def dropTrailingEq (t : List Nat) : List Nat :=
  if t.getLast? == some 61 then t.dropLast else t

/-- `Option`-valued map over a list, failing when any element fails. -/
def mapOpt (f : Nat → Option Nat) : List Nat → Option (List Nat)
  | [] => some []
  | a :: t => (f a).bind fun b => (mapOpt f t).map (b :: ·)

/-- Remove up to two trailing `=` when the length is a multiple of four. -/
def stripB64Pad (t : List Nat) : List Nat :=
  if t.length % 4 == 0 then dropTrailingEq (dropTrailingEq t) else t

/-- Decode a whitespace-free, padding-free base64 body: fail on length ≡ 1
(mod 4) or any character outside the alphabet, then reassemble the bytes. -/
def b64DecodeBody (t : List Nat) : Option (List Nat) :=
  if t.length % 4 == 1 then none
  else (mapOpt b64Value t).bind b64Bytes

/-- JS `atob` (WHATWG forgiving-base64 decode): strip ASCII whitespace,
remove the padding, then decode the body. -/
def atob (s : List Nat) : Option (List Nat) :=
  b64DecodeBody (stripB64Pad (s.filter (fun ch => !isB64Whitespace ch)))

/-! ### UTF-8 escaping used by `base64Encode` / `base64Decode` -/

/-- The composite `unescape(encodeURIComponent(text))` from `base64Encode`
(src/unnamed/part_003 line 121): the UTF-8 byte string of the text, where a
surrogate pair encodes its astral code point and `encodeURIComponent` throws
`URIError` (modelled as `none`) on a lone surrogate. -/
def utf8Bytes : List Nat → Option (List Nat)
  | [] => some []
  | u :: rest =>
    if u < 128 then (utf8Bytes rest).map (u :: ·)
    else if u < 2048 then
      (utf8Bytes rest).map (fun r => (192 + u / 64) :: (128 + u % 64) :: r)
    else if u < 55296 ∨ 57344 ≤ u then
      (utf8Bytes rest).map
        (fun r => (224 + u / 4096) :: (128 + u / 64 % 64) :: (128 + u % 64) :: r)
    else if u < 56320 then
      match rest with
      | low :: rest2 =>
        if 56320 ≤ low ∧ low < 57344 then
          (utf8Bytes rest2).map (fun r =>
            (240 + (65536 + (u - 55296) * 1024 + (low - 56320)) / 262144)
              :: (128 + (65536 + (u - 55296) * 1024 + (low - 56320)) / 4096 % 64)
              :: (128 + (65536 + (u - 55296) * 1024 + (low - 56320)) / 64 % 64)
              :: (128 + (65536 + (u - 55296) * 1024 + (low - 56320)) % 64) :: r)
        else none
      | [] => none
    else none

mutual

/-- The composite `decodeURIComponent(escape(bytes))` from `base64Decode`
(src/unnamed/part_003 line 126): strict UTF-8 decoding of a byte string back
to UTF-16 code units, `URIError` (modelled as `none`) on malformed input.
A lead byte opens a 2-, 3-, or 4-byte sequence, handled by `utf8More`. -/
def utf8Units : List Nat → Option (List Nat)
  | [] => some []
  | b :: rest =>
    if b < 128 then (utf8Units rest).map (b :: ·)
    else if b < 192 then none
    else if b < 224 then utf8More (b - 192) 1 128 rest
    else if b < 240 then utf8More (b - 224) 2 2048 rest
    else if b < 248 then utf8More (b - 240) 3 65536 rest
    else none

/-- Continuation bytes of a UTF-8 sequence: `acc` is the partial code point,
`need` the number of continuation bytes still expected, `lo` the smallest
code point the sequence is allowed to produce (the overlong check).  When the
sequence completes, a code point below 2^16 becomes one UTF-16 unit and a
larger one a surrogate pair; surrogate code points and values at or above
0x110000 are rejected. -/
def utf8More (acc need lo : Nat) : List Nat → Option (List Nat)
  | [] => none
  | c :: rest =>
    if 128 ≤ c ∧ c < 192 then
      if need = 1 then
        if lo ≤ acc * 64 + (c - 128)
            ∧ (acc * 64 + (c - 128) < 55296 ∨ 57344 ≤ acc * 64 + (c - 128))
            ∧ acc * 64 + (c - 128) < 1114112 then
          if acc * 64 + (c - 128) < 65536 then
            (utf8Units rest).map ((acc * 64 + (c - 128)) :: ·)
          else
            (utf8Units rest).map (fun r =>
              (55296 + (acc * 64 + (c - 128) - 65536) / 1024)
                :: (56320 + (acc * 64 + (c - 128) - 65536) % 1024) :: r)
        else none
      else utf8More (acc * 64 + (c - 128)) (need - 1) lo rest
    else none

end

/-- `base64Encode` (src/unnamed/part_003 lines 120-122):
`btoa(unescape(encodeURIComponent(text)))`. -/
def base64Encode (text : List Nat) : Option (List Nat) :=
  (utf8Bytes text).bind btoa

/-- `base64Decode` (src/unnamed/part_003 lines 124-130):
`decodeURIComponent(escape(atob(encodedText)))`, every failure surfaced as
the thrown `Error('Invalid Base64 text')`, modelled as `none`. -/
def base64Decode (encodedText : List Nat) : Option (List Nat) :=
  (atob encodedText).bind utf8Units

/-! ### XOR encryption -/

/-- The XOR loop shared by `encryptMessage` and `decryptMessage`: character
`i` is XORed with the password character at index `i mod length`. -/
def xorWith (pwd : List Nat) : Nat → List Nat → List Nat
  | _, [] => []
  | i, c :: cs => (c ^^^ pwd.getD (i % pwd.length) 0) :: xorWith pwd (i + 1) cs

/-- `encryptMessage` (src/unnamed/part_003 lines 23-33): the empty password
returns the message unchanged; otherwise XOR with the repeating password and
base64-encode via `btoa` (which throws on code units above 255). -/
def encryptMessage (message pwd : List Nat) : Option (List Nat) :=
  if pwd = [] then some message
  else btoa (xorWith pwd 0 message)

/-- `decryptMessage` (src/unnamed/part_003 lines 35-50): the empty password
returns the ciphertext unchanged; otherwise base64-decode and XOR, returning
the original input when `atob` throws. -/
def decryptMessage (encryptedMessage pwd : List Nat) : List Nat :=
  if pwd = [] then encryptedMessage
  else
    match atob encryptedMessage with
    | some decoded => xorWith pwd 0 decoded
    | none => encryptedMessage

/-! ### JS `parseInt` and the hex / binary decoders -/

/-- JS `StrWhiteSpace` characters skipped by `parseInt`. -/
def isJsWhitespace (c : Nat) : Bool :=
  c == 9 || c == 10 || c == 11 || c == 12 || c == 13 || c == 32 || c == 160
    || c == 5760 || (8192 ≤ c && c ≤ 8202) || c == 8232 || c == 8233 || c == 8239
    || c == 8287 || c == 12288 || c == 65279

/-- Value of a digit character in the given radix, `none` when invalid. -/
def digitVal (radix ch : Nat) : Option Nat :=
  if 48 ≤ ch ∧ ch ≤ 57 ∧ ch - 48 < radix then some (ch - 48)
  else if 97 ≤ ch ∧ ch ≤ 122 ∧ ch - 87 < radix then some (ch - 87)
  else if 65 ≤ ch ∧ ch ≤ 90 ∧ ch - 55 < radix then some (ch - 55)
  else none

/-- Longest valid-digit prefix, accumulated; `none` when no digit was read. -/
def parseDigits (radix : Nat) : List Nat → Option Nat → Option Nat
  | [], acc => acc
  | ch :: rest, acc =>
    match digitVal radix ch with
    | some d => parseDigits radix rest (some (acc.getD 0 * radix + d))
    | none => acc

/-- Strip an optional leading sign; `true` means negative. -/
def stripSign : List Nat → Bool × List Nat
  | 43 :: r => (false, r)
  | 45 :: r => (true, r)
  | t => (false, t)

/-- Strip an optional `0x` / `0X` prefix (radix-16 only). -/
def strip0x : List Nat → List Nat
  | 48 :: 120 :: r => r
  | 48 :: 88 :: r => r
  | t => t

/-- JS `parseInt(string, radix)`: skip whitespace, read an optional sign and
(for radix 16) an optional `0x` prefix, then parse the longest valid-digit
prefix; `none` models `NaN` (no digit read).  `parseInt` never throws. -/
def jsParseInt (radix : Nat) (s : List Nat) : Option Int :=
  let p := stripSign (s.dropWhile fun c => isJsWhitespace c)
  let t := if radix = 16 then strip0x p.2 else p.2
  match parseDigits radix t none with
  | some v => if p.1 then some (-(v : Int)) else some (v : Int)
  | none => none

/-- `String.fromCharCode` applied to a `parseInt` result: `NaN` converts to
code unit 0, any number is reduced by `ToUint16`. -/
def fromCharCodeOpt : Option Int → Nat
  | some v => toUint16 v
  | none => 0

/-- `hexToText` (src/unnamed/part_003 lines 165-173): split on spaces, parse
each group as hex and take its char code.  `parseInt` never throws, so the
`catch` branch is unreachable and the function is total. -/
def hexToText (hex : List Nat) : List Nat :=
  (hex.splitOn 32).map fun h => fromCharCodeOpt (jsParseInt 16 h)

/-- `binaryToText` (src/unnamed/part_003 lines 149-157): split on spaces,
parse each group as binary and take its char code; total for the same
reason. -/
def binaryToText (bin : List Nat) : List Nat :=
  (bin.splitOn 32).map fun b => fromCharCodeOpt (jsParseInt 2 b)

/-! ### `autoDetectCipher` -/

/-- The character class `[A-Za-z0-9+/]` of the Base64 detection regex. -/
def isB64RegexChar (c : Nat) : Bool :=
  (65 ≤ c && c ≤ 90) || (97 ≤ c && c ≤ 122) || (48 ≤ c && c ≤ 57)
    || c == 43 || c == 47

/-- The regex class `\s` (without the `u` flag). -/
def isRegexSpace (c : Nat) : Bool :=
  c == 9 || c == 10 || c == 11 || c == 12 || c == 13 || c == 32 || c == 160
    || c == 5760 || (8192 ≤ c && c ≤ 8202) || c == 8232 || c == 8233 || c == 8239
    || c == 8287 || c == 12288 || c == 65279

/-- `/^[A-Za-z0-9+\/]*={0,2}$/.test(s)`: after removing the trailing run of
`=` (which must have length at most 2), everything is in the class. -/
def base64Pat (s : List Nat) : Bool :=
  let body := (s.reverse.dropWhile (· == 61)).reverse
  s.length - body.length ≤ 2 && body.all isB64RegexChar

/-- `/^[01\s]+$/.test(s)`. -/
def binaryPat (s : List Nat) : Bool :=
  !s.isEmpty && s.all fun c => c == 48 || c == 49 || isRegexSpace c

/-- `/^[0-9a-fA-F\s]+$/.test(s)`. -/
def hexPat (s : List Nat) : Bool :=
  !s.isEmpty && s.all fun c =>
    (48 ≤ c && c ≤ 57) || (97 ≤ c && c ≤ 102) || (65 ≤ c && c ≤ 70) || isRegexSpace c

/-- `/^[A-Za-z\s]+$/.test(s)`. -/
def lettersPat (s : List Nat) : Bool :=
  !s.isEmpty && s.all fun c =>
    (65 ≤ c && c ≤ 90) || (97 ≤ c && c ≤ 122) || isRegexSpace c

/-- `autoDetectCipher` (src/unnamed/part_003 lines 203-211): regex checks in
a fixed priority order. -/
def autoDetectCipher (s : List Nat) : String :=
  if base64Pat s then "Base64"
  else if binaryPat s then "Binary"
  else if hexPat s then "Hexadecimal"
  else if s = s.reverse then "Reversed"
  else if lettersPat s then "Possible Caesar/ROT13"
  else "Unknown/Custom Encryption"

/-! ### LSB steganography (src/src/lib/steganography.ts) -/

/-- A decoded RGBA canvas buffer: `data` holds the flattened bytes. -/
structure ImageData where
  data : List Nat
  width : Nat
  height : Nat
deriving DecidableEq

/-- Binary digits of `n`, least significant first (`fuel`-bounded, enough
fuel makes it total on the intended range). -/
def natBitsLE : Nat → Nat → List Bool
  | 0, _ => []
  | fuel + 1, n => if n = 0 then [] else (n % 2 == 1) :: natBitsLE fuel (n / 2)

/-- `charCodeAt(0).toString(2).padStart(8, '0')` as a bit list, most
significant first: the minimal binary representation, left-padded with
zeroes to at least 8 digits (never truncated). -/
def charBits (ch : Nat) : List Bool :=
  List.replicate (8 - (natBitsLE 17 ch).length) false ++ (natBitsLE 17 ch).reverse

/-- The 16-bit end marker `1111111111111110`. -/
def endMarker : List Bool :=
  [true, true, true, true, true, true, true, true,
   true, true, true, true, true, true, true, false]

/-- The full embedded bit stream: 8 bits per character, then the marker. -/
def messageBits (text : List Nat) : List Bool :=
  (text.map charBits).flatten ++ endMarker

/-- `(data[i] & 0xFE) | bit`. -/
def setRedLSB (r : Nat) (bo : Bool) : Nat := (r &&& 254) ||| (if bo then 1 else 0)

/-- The embedding loop of `hideTextInImage`: write one bit into the red
channel of each 4-byte pixel while bits remain, leave everything else. -/
def embedBits : List Nat → List Bool → List Nat
  | data, [] => data
  | [], _ => []
  | r :: g :: b :: a :: rest, bit :: bits =>
      setRedLSB r bit :: g :: b :: a :: embedBits rest bits
  | r :: rest, bit :: _ => setRedLSB r bit :: rest

/-- `hideTextInImage` (steganography.ts lines 4-21): embed the message bits
into a copy of the buffer, keeping width and height. -/
def hideTextInImage (img : ImageData) (text : List Nat) : ImageData :=
  ⟨embedBits img.data (messageBits text), img.width, img.height⟩

/-- The red-channel LSB stream read by `extractTextFromImage`. -/
def redLSBs : List Nat → List Bool
  | r :: _ :: _ :: _ :: rest => (r % 2 == 1) :: redLSBs rest
  | r :: _ => [r % 2 == 1]
  | [] => []

/-- Whether `pat` is an initial segment of the second list. -/
def leadsWith : List Bool → List Bool → Bool
  | [], _ => true
  | p :: ps, l =>
    match l with
    | [] => false
    | x :: xs => (p == x) && leadsWith ps xs

/-- `binaryText.indexOf(endMarker)`: index of the first occurrence of the
marker, `none` when absent. -/
def findMarkerIdx : List Bool → Option Nat
  | [] => none
  | l@(_ :: t) => if leadsWith endMarker l then some 0 else (findMarkerIdx t).map (· + 1)

/-- The final decoding loop: 8 bits per character, most significant first; a
trailing group shorter than 8 bits is dropped. -/
def bitsToChars : List Bool → List Nat
  | b1 :: b2 :: b3 :: b4 :: b5 :: b6 :: b7 :: b8 :: rest =>
      ((if b1 then 128 else 0) + (if b2 then 64 else 0) + (if b3 then 32 else 0)
        + (if b4 then 16 else 0) + (if b5 then 8 else 0) + (if b6 then 4 else 0)
        + (if b7 then 2 else 0) + (if b8 then 1 else 0)) :: bitsToChars rest
  | _ => []

/-- `extractTextFromImage` (steganography.ts lines 23-51): read the red-LSB
stream, find the first end marker (`none` models the thrown
`Error('No hidden text found in image')`), and decode the bits before it. -/
def extractTextFromImage (img : ImageData) : Option (List Nat) :=
  match findMarkerIdx (redLSBs img.data) with
  | some idx => some (bitsToChars ((redLSBs img.data).take idx))
  | none => none

/-! ### Helper lemmas for the Caesar cipher -/

lemma map_eq_self_of_forall {f : Nat → Nat} :
    ∀ l : List Nat, (∀ c ∈ l, f c = c) → l.map f = l := by
  intro l h
  induction l with
  | nil => rfl
  | cons a t ih =>
    simp only [List.map_cons, List.cons.injEq]
    exact ⟨h a (by simp), ih fun c hc => h c (by simp [hc])⟩

lemma isAsciiLetter_iff (c : Nat) :
    isAsciiLetter c = true ↔ (65 ≤ c ∧ c ≤ 90) ∨ (97 ≤ c ∧ c ≤ 122) := by
  simp [isAsciiLetter, Bool.or_eq_true, Bool.and_eq_true, decide_eq_true_eq]

lemma isAsciiLetter_false (c : Nat) (h1 : ¬(65 ≤ c ∧ c ≤ 90)) (h2 : ¬(97 ≤ c ∧ c ≤ 122)) :
    isAsciiLetter c = false := by
  unfold isAsciiLetter
  simp only [Bool.or_eq_false_iff, Bool.and_eq_false_iff, decide_eq_false_iff_not]
  omega

lemma caesarChar_upper (s : Int) (c : Nat) (h1 : 65 ≤ c) (h2 : c ≤ 90) :
    caesarChar s c = toUint16 (((c : Int) - 65 + s).tmod 26 + 65) := by
  unfold caesarChar caesarBase
  rw [if_pos ((isAsciiLetter_iff c).2 (Or.inl ⟨h1, h2⟩)), if_pos ⟨h1, h2⟩]

lemma caesarChar_lower (s : Int) (c : Nat) (h1 : 97 ≤ c) (h2 : c ≤ 122) :
    caesarChar s c = toUint16 (((c : Int) - 97 + s).tmod 26 + 97) := by
  unfold caesarChar caesarBase
  rw [if_pos ((isAsciiLetter_iff c).2 (Or.inr ⟨h1, h2⟩)), if_neg (by omega)]

lemma caesarChar_other (s : Int) (c : Nat) (h : isAsciiLetter c = false) :
    caesarChar s c = c := by
  unfold caesarChar
  rw [h]
  simp

lemma caesar_step_eq_spec (bse : Nat) (c : Nat) (s : Int) (hs : 0 ≤ s)
    (hc1 : bse ≤ c) (hc2 : c ≤ bse + 25) (hb : 0 < bse) (hb2 : bse ≤ 65510) :
    toUint16 (((c : Int) - (bse : Int) + s).tmod 26 + (bse : Int))
      = bse + (c - bse + s.toNat) % 26 := by
  rw [Int.tmod_eq_emod (by omega) (by omega)]
  unfold toUint16
  omega

lemma caesar_step_range (bse : Nat) (c : Nat) (s : Int) (hs : 0 ≤ s)
    (hc1 : bse ≤ c) (hc2 : c ≤ bse + 25) (hb : 0 < bse) (hb2 : bse ≤ 65510) :
    bse ≤ toUint16 (((c : Int) - (bse : Int) + s).tmod 26 + (bse : Int))
      ∧ toUint16 (((c : Int) - (bse : Int) + s).tmod 26 + (bse : Int)) ≤ bse + 25 := by
  rw [Int.tmod_eq_emod (by omega) (by omega)]
  unfold toUint16
  omega

lemma caesar_step_roundtrip (bse : Nat) (c : Nat) (s : Int)
    (h1 : 1 ≤ s) (h2 : s ≤ 25) (hc1 : bse ≤ c) (hc2 : c ≤ bse + 25)
    (hb : 0 < bse) (hb2 : bse ≤ 65510) :
    toUint16 (((toUint16 (((c : Int) - (bse : Int) + s).tmod 26 + (bse : Int)) : Int)
        - (bse : Int) + (26 - s)).tmod 26 + (bse : Int)) = c := by
  have hd : (toUint16 (((c : Int) - (bse : Int) + s).tmod 26 + (bse : Int)) : Int)
      = ((c : Int) - (bse : Int) + s) % 26 + (bse : Int) := by
    rw [Int.tmod_eq_emod (by omega) (by omega)]
    unfold toUint16
    omega
  rw [hd, Int.tmod_eq_emod (by omega) (by omega)]
  unfold toUint16
  omega

lemma caesar_step_id (bse : Nat) (c : Nat) (s : Int) (h : s = 0 ∨ s = 26)
    (hc1 : bse ≤ c) (hc2 : c ≤ bse + 25) (hb : 0 < bse) (hb2 : bse ≤ 65510) :
    toUint16 (((c : Int) - (bse : Int) + s).tmod 26 + (bse : Int)) = c := by
  rw [Int.tmod_eq_emod (by omega) (by omega)]
  unfold toUint16
  omega

lemma caesarChar_eq_spec (shift : Int) (hs : 0 ≤ shift) (c : Nat) :
    caesarChar shift c = specCaesarChar shift.toNat c := by
  by_cases hu : 65 ≤ c ∧ c ≤ 90
  · rw [caesarChar_upper shift c hu.1 hu.2, specCaesarChar, if_pos hu]
    have h := caesar_step_eq_spec 65 c shift hs (by omega) (by omega) (by omega) (by omega)
    push_cast at h
    exact h
  · by_cases hl : 97 ≤ c ∧ c ≤ 122
    · rw [caesarChar_lower shift c hl.1 hl.2, specCaesarChar, if_neg hu, if_pos hl]
      have h := caesar_step_eq_spec 97 c shift hs (by omega) (by omega) (by omega) (by omega)
      push_cast at h
      exact h
    · rw [caesarChar_other shift c (isAsciiLetter_false c hu hl),
        specCaesarChar, if_neg hu, if_neg hl]

lemma caesarChar_roundtrip (s : Int) (h1 : 1 ≤ s) (h2 : s ≤ 25) (c : Nat) :
    caesarChar (26 - s) (caesarChar s c) = c := by
  by_cases hu : 65 ≤ c ∧ c ≤ 90
  · rw [caesarChar_upper s c hu.1 hu.2]
    have hr := caesar_step_range 65 c s (by omega) (by omega) (by omega)
      (by omega) (by omega)
    push_cast at hr
    rw [caesarChar_upper (26 - s) _ (by omega) (by omega)]
    have h := caesar_step_roundtrip 65 c s h1 h2 (by omega) (by omega) (by omega) (by omega)
    push_cast at h
    exact h
  · by_cases hl : 97 ≤ c ∧ c ≤ 122
    · rw [caesarChar_lower s c hl.1 hl.2]
      have hr := caesar_step_range 97 c s (by omega) (by omega) (by omega)
        (by omega) (by omega)
      push_cast at hr
      rw [caesarChar_lower (26 - s) _ (by omega) (by omega)]
      have h := caesar_step_roundtrip 97 c s h1 h2 (by omega) (by omega) (by omega) (by omega)
      push_cast at h
      exact h
    · rw [caesarChar_other s c (isAsciiLetter_false c hu hl),
        caesarChar_other (26 - s) c (isAsciiLetter_false c hu hl)]

lemma caesarChar_id (c : Nat) (s : Int) (h : s = 0 ∨ s = 26) : caesarChar s c = c := by
  by_cases hu : 65 ≤ c ∧ c ≤ 90
  · rw [caesarChar_upper s c hu.1 hu.2]
    have hi := caesar_step_id 65 c s h (by omega) (by omega) (by omega) (by omega)
    push_cast at hi
    exact hi
  · by_cases hl : 97 ≤ c ∧ c ≤ 122
    · rw [caesarChar_lower s c hl.1 hl.2]
      have hi := caesar_step_id 97 c s h (by omega) (by omega) (by omega) (by omega)
      push_cast at hi
      exact hi
    · exact caesarChar_other s c (isAsciiLetter_false c hu hl)

/-! ### Claim theorems (Caesar cipher) -/

/-- C4 (amended): for every nonnegative integer shift, `encodeMessage` maps
each character through the spec-side Caesar step `specCaesarChar`; that step
keeps upper-case letters upper-case letters, lower-case letters lower-case
letters, and leaves non-letters unchanged.  (For negative shifts the code's
truncated `%` can produce non-letters, see the counterexample.) -/
theorem C4_caesar_shift_spec :
    (∀ (shift : Int), 0 ≤ shift →
      ∀ s : List Nat, encodeMessage s shift = s.map (specCaesarChar shift.toNat))
    ∧ (∀ k c, 65 ≤ c ∧ c ≤ 90 → 65 ≤ specCaesarChar k c ∧ specCaesarChar k c ≤ 90)
    ∧ (∀ k c, 97 ≤ c ∧ c ≤ 122 → 97 ≤ specCaesarChar k c ∧ specCaesarChar k c ≤ 122)
    ∧ (∀ k c, ¬(65 ≤ c ∧ c ≤ 90) → ¬(97 ≤ c ∧ c ≤ 122) → specCaesarChar k c = c) := by
  refine ⟨fun shift hs s => ?_, fun k c hc => ?_, fun k c hc => ?_, fun k c h1 h2 => ?_⟩
  · unfold encodeMessage
    exact List.map_congr_left fun c _ => caesarChar_eq_spec shift hs c
  · unfold specCaesarChar
    rw [if_pos hc]
    omega
  · unfold specCaesarChar
    rw [if_neg (by omega), if_pos hc]
    omega
  · unfold specCaesarChar
    rw [if_neg h1, if_neg h2]

/-- C4 witness: the amended theorem applied at the string "Hi!" with shift 3. -/
theorem C4_caesar_shift_spec_witness :
    encodeMessage [72, 105, 33] 3 = List.map (specCaesarChar 3) [72, 105, 33] :=
  C4_caesar_shift_spec.1 3 (by decide) [72, 105, 33]

/-- C4 counterexample: the claim quantifies over every integer shift, but for
the negative shift -3 the letter "a" is sent to the non-letter "^" (code 94):
JS `%` truncates toward zero, so `(0 - 3) % 26 = -3` and the result falls
below the alphabet base. -/
theorem C4_counterexample :
    encodeMessage [97] (-3) = [94] ∧ isAsciiLetter 94 = false := by
  constructor
  · rfl
  · rfl

/-- C6: for every shift s in [1,25] and every string x,
`decodeMessage (encodeMessage x s) s = x`; and `encodeMessage` with shift 0
or with shift 26 is the identity on every string. -/
theorem C6_caesar_roundtrip :
    (∀ (s : Int), 1 ≤ s → s ≤ 25 →
      ∀ x : List Nat, decodeMessage (encodeMessage x s) s = x)
    ∧ (∀ x : List Nat, encodeMessage x 0 = x)
    ∧ (∀ x : List Nat, encodeMessage x 26 = x) := by
  refine ⟨fun s h1 h2 x => ?_, fun x => ?_, fun x => ?_⟩
  · unfold decodeMessage encodeMessage
    rw [List.map_map]
    exact map_eq_self_of_forall x fun c _ => caesarChar_roundtrip s h1 h2 c
  · exact map_eq_self_of_forall x fun c _ => caesarChar_id c 0 (Or.inl rfl)
  · exact map_eq_self_of_forall x fun c _ => caesarChar_id c 26 (Or.inr rfl)

/-- C6 witness: the roundtrip theorem applied at shift 3 and "Hello". -/
theorem C6_caesar_roundtrip_witness :
    decodeMessage (encodeMessage [72, 101, 108, 108, 111] 3) 3 = [72, 101, 108, 108, 111] :=
  C6_caesar_roundtrip.1 3 (by decide) (by decide) [72, 101, 108, 108, 111]

/-! ### Helper lemmas for base64 -/

lemma b64PadLen_le (n : Nat) : b64PadLen n ≤ 2 := by
  unfold b64PadLen
  omega

lemma b64Symbols_lt :
    ∀ s : List Nat, (∀ x ∈ s, x < 256) → ∀ v ∈ b64Symbols s, v < 64 := by
  intro s
  induction s using b64Symbols.induct with
  | case1 =>
    intro _ v hv
    simp [b64Symbols] at hv
  | case2 a =>
    intro h v hv
    have ha := h a (by simp)
    simp [b64Symbols] at hv
    rcases hv with h1 | h1 <;> omega
  | case3 a b =>
    intro h v hv
    have ha := h a (by simp)
    have hb := h b (by simp)
    simp [b64Symbols] at hv
    rcases hv with h1 | h1 | h1 <;> omega
  | case4 a b c rest ih =>
    intro h v hv
    have ha := h a (by simp)
    have hb := h b (by simp)
    have hc := h c (by simp)
    simp only [b64Symbols, List.mem_cons] at hv
    rcases hv with h1 | h1 | h1 | h1 | h1
    · omega
    · omega
    · omega
    · omega
    · exact ih (fun x hx => h x (by simp [hx])) v h1

lemma b64Bytes_b64Symbols :
    ∀ s : List Nat, (∀ x ∈ s, x < 256) → b64Bytes (b64Symbols s) = some s := by
  intro s
  induction s using b64Symbols.induct with
  | case1 =>
    intro _
    rfl
  | case2 a =>
    intro h
    have ha := h a (by simp)
    simp only [b64Symbols, b64Bytes, Option.some.injEq, List.cons.injEq, and_true]
    omega
  | case3 a b =>
    intro h
    have ha := h a (by simp)
    have hb := h b (by simp)
    simp only [b64Symbols, b64Bytes, Option.some.injEq, List.cons.injEq, and_true]
    constructor <;> omega
  | case4 a b c rest ih =>
    intro h
    have ha := h a (by simp)
    have hb := h b (by simp)
    have hc := h c (by simp)
    have ih' := ih (fun x hx => h x (by simp [hx]))
    simp only [b64Symbols, b64Bytes, ih', Option.map_some', Option.some.injEq,
      List.cons.injEq]
    refine ⟨?_, ?_, ?_, trivial⟩ <;> omega

lemma b64Symbols_length (s : List Nat) :
    ((b64Symbols s).length + b64PadLen s.length) % 4 = 0 := by
  induction s using b64Symbols.induct with
  | case1 => rfl
  | case2 a => simp [b64Symbols, b64PadLen]
  | case3 a b => simp [b64Symbols, b64PadLen]
  | case4 a b c rest ih =>
    have h1 : (b64Symbols (a :: b :: c :: rest)).length = (b64Symbols rest).length + 4 := by
      simp [b64Symbols]
    have h2 : (a :: b :: c :: rest : List Nat).length = rest.length + 3 := by simp
    unfold b64PadLen at *
    omega

lemma b64Value_b64Char : ∀ v : Nat, v < 64 → b64Value (b64Char v) = some v := by decide

lemma b64Char_props : ∀ v : Nat, v < 64 →
    isB64Whitespace (b64Char v) = false ∧ b64Char v ≠ 61 := by decide

lemma mapOpt_b64Value_map :
    ∀ l : List Nat, (∀ v ∈ l, v < 64) → mapOpt b64Value (l.map b64Char) = some l := by
  intro l
  induction l with
  | nil =>
    intro _
    rfl
  | cons a t ih =>
    intro h
    simp only [List.map_cons, mapOpt]
    rw [b64Value_b64Char a (h a (by simp)), ih (fun v hv => h v (by simp [hv]))]
    rfl

lemma getLast?_map_b64Char (l : List Nat) (h : ∀ v ∈ l, v < 64) :
    (l.map b64Char).getLast? ≠ some 61 := by
  intro hc
  rw [List.getLast?_map] at hc
  obtain ⟨v, hv, hchar⟩ := Option.map_eq_some'.mp hc
  obtain ⟨hne, heq⟩ := List.mem_getLast?_eq_getLast (show v ∈ l.getLast? from hv)
  have hmem : v ∈ l := heq ▸ List.getLast_mem hne
  exact (b64Char_props v (h v hmem)).2 hchar

lemma dropTrailingEq_of_ne (l : List Nat) (h : l.getLast? ≠ some 61) :
    dropTrailingEq l = l := by
  unfold dropTrailingEq
  rw [if_neg]
  simp only [beq_iff_eq]
  exact h

lemma dropTrailingEq_concat (l : List Nat) : dropTrailingEq (l ++ [61]) = l := by
  unfold dropTrailingEq
  rw [List.getLast?_concat, if_pos (by simp), List.dropLast_concat]

lemma atob_btoa (s bs : List Nat) (h : btoa s = some bs) : atob bs = some s := by
  unfold btoa at h
  by_cases hall : s.all (· < 256)
  · rw [if_pos hall] at h
    have h256 : ∀ x ∈ s, x < 256 := by
      intro x hx
      simpa using List.all_eq_true.mp hall x hx
    have hbs : bs = (b64Symbols s).map b64Char
        ++ List.replicate (b64PadLen s.length) 61 := (Option.some.inj h).symm
    have hv64 : ∀ v ∈ b64Symbols s, v < 64 := b64Symbols_lt s h256
    have hMne : ∀ ch ∈ (b64Symbols s).map b64Char,
        isB64Whitespace ch = false ∧ ch ≠ 61 := by
      intro ch hch
      obtain ⟨v, hv, rfl⟩ := List.mem_map.mp hch
      exact b64Char_props v (hv64 v hv)
    have hlast : ((b64Symbols s).map b64Char).getLast? ≠ some 61 :=
      getLast?_map_b64Char _ hv64
    unfold atob
    have hfil : ((b64Symbols s).map b64Char
        ++ List.replicate (b64PadLen s.length) 61).filter
          (fun ch => !isB64Whitespace ch)
        = (b64Symbols s).map b64Char ++ List.replicate (b64PadLen s.length) 61 := by
      apply List.filter_eq_self.mpr
      intro a ha
      rcases List.mem_append.mp ha with h1 | h1
      · simp [(hMne a h1).1]
      · rw [List.eq_of_mem_replicate h1]
        rfl
    have hlen4 := b64Symbols_length s
    have hMlen : ((b64Symbols s).map b64Char).length = (b64Symbols s).length :=
      List.length_map _ _
    have hple : b64PadLen s.length ≤ 2 := b64PadLen_le _
    have hstrip : stripB64Pad ((b64Symbols s).map b64Char
        ++ List.replicate (b64PadLen s.length) 61) = (b64Symbols s).map b64Char := by
      unfold stripB64Pad
      rw [if_pos]
      · have hp3 : b64PadLen s.length = 0 ∨ b64PadLen s.length = 1
            ∨ b64PadLen s.length = 2 := by omega
        rcases hp3 with hp | hp | hp <;> rw [hp]
        · simp only [List.replicate, List.append_nil]
          rw [dropTrailingEq_of_ne _ hlast, dropTrailingEq_of_ne _ hlast]
        · rw [show List.replicate 1 (61 : Nat) = [61] from rfl, dropTrailingEq_concat,
            dropTrailingEq_of_ne _ hlast]
        · rw [show List.replicate 2 (61 : Nat) = [61] ++ [61] from rfl,
            ← List.append_assoc, dropTrailingEq_concat, dropTrailingEq_concat]
      · simp only [List.length_append, List.length_replicate, hMlen, beq_iff_eq]
        omega
    rw [hbs, hfil, hstrip]
    unfold b64DecodeBody
    rw [if_neg (by simp only [hMlen, beq_iff_eq]; omega)]
    rw [mapOpt_b64Value_map _ hv64, Option.some_bind]
    exact b64Bytes_b64Symbols s h256
  · rw [if_neg hall] at h
    exact absurd h (by simp)

/-! ### Helper lemmas for the XOR cipher -/

lemma getD_lt_256 (pwd : List Nat) (hp : ∀ p ∈ pwd, p < 256) (j : Nat)
    (hj : j < pwd.length) : pwd.getD j 0 < 256 := by
  rw [List.getD_eq_getElem?_getD, List.getElem?_eq_getElem hj]
  exact hp _ (List.getElem_mem hj)

lemma xorWith_lt (pwd : List Nat) (hp : ∀ p ∈ pwd, p < 256) (hne : pwd ≠ []) :
    ∀ (i : Nat) (msg : List Nat), (∀ c ∈ msg, c < 256) →
      ∀ x ∈ xorWith pwd i msg, x < 256 := by
  intro i msg
  induction msg generalizing i with
  | nil =>
    intro _ x hx
    simp [xorWith] at hx
  | cons c cs ih =>
    intro h x hx
    simp only [xorWith, List.mem_cons] at hx
    rcases hx with hx | hx
    · have hlen : 0 < pwd.length := List.length_pos.mpr hne
      have hkey : pwd.getD (i % pwd.length) 0 < 256 :=
        getD_lt_256 pwd hp _ (Nat.mod_lt _ hlen)
      have hc : c < 256 := h c (by simp)
      subst hx
      exact Nat.xor_lt_two_pow (n := 8) hc hkey
    · exact ih (i + 1) (fun y hy => h y (by simp [hy])) x hx

lemma xorWith_involutive (pwd : List Nat) :
    ∀ (i : Nat) (msg : List Nat), xorWith pwd i (xorWith pwd i msg) = msg := by
  intro i msg
  induction msg generalizing i with
  | nil => rfl
  | cons c cs ih =>
    simp only [xorWith, List.cons.injEq]
    exact ⟨Nat.xor_cancel_right _ c, ih (i + 1)⟩

/-! ### Claim theorems (XOR encryption) -/

/-- C2 (amended): for every non-empty password all of whose code units are
at most 255 and every message all of whose code units are at most 255,
encryption succeeds and decryption restores the message exactly.  (For a
password with a code unit above 255 the XOR can exceed 255 and `btoa`
throws, see the counterexample.) -/
theorem C2_xor_roundtrip :
    ∀ pwd msg : List Nat, pwd ≠ [] → (∀ p ∈ pwd, p < 256) → (∀ c ∈ msg, c < 256) →
      ∃ ct, encryptMessage msg pwd = some ct ∧ decryptMessage ct pwd = msg := by
  intro pwd msg hne hp hm
  have hx256 : ∀ x ∈ xorWith pwd 0 msg, x < 256 := xorWith_lt pwd hp hne 0 msg hm
  have hb : btoa (xorWith pwd 0 msg)
      = some ((b64Symbols (xorWith pwd 0 msg)).map b64Char
          ++ List.replicate (b64PadLen (xorWith pwd 0 msg).length) 61) := by
    unfold btoa
    rw [if_pos (List.all_eq_true.mpr fun x hx => by simpa using hx256 x hx)]
  refine ⟨(b64Symbols (xorWith pwd 0 msg)).map b64Char
      ++ List.replicate (b64PadLen (xorWith pwd 0 msg).length) 61, ?_, ?_⟩
  · unfold encryptMessage
    rw [if_neg hne]
    exact hb
  · unfold decryptMessage
    rw [if_neg hne, atob_btoa _ _ hb]
    exact xorWith_involutive pwd 0 msg

/-- C2 witness: the amended theorem applied to password "k" (code 107) and
message "hi" (codes 104, 105). -/
theorem C2_xor_roundtrip_witness :
    ∃ ct, encryptMessage [104, 105] [107] = some ct
      ∧ decryptMessage ct [107] = [104, 105] :=
  C2_xor_roundtrip [107] [104, 105] (by decide) (by decide) (by decide)

/-- C2 counterexample: the claim quantifies over every non-empty password,
but for the password "Ā" (code unit 256) and the single-byte message "a"
(code 97) the XOR value is 353, outside the byte range, so `btoa` throws an
`InvalidCharacterError` and the encrypt/decrypt roundtrip never returns the
message. -/
theorem C2_counterexample : encryptMessage [97] [256] = none := by rfl

/-- C10: with the empty password, `encryptMessage` returns the message
unchanged (without base64-encoding) and `decryptMessage` returns the
ciphertext unchanged; neither throws. -/
theorem C10_empty_password :
    (∀ msg : List Nat, encryptMessage msg [] = some msg)
    ∧ (∀ ct : List Nat, decryptMessage ct [] = ct) := by
  constructor <;> intro l <;> rfl

/-! ### Helper lemmas for UTF-8 -/

lemma utf8Bytes_ascii (a : Nat) (t : List Nat) (h : a < 128) :
    utf8Bytes (a :: t) = (utf8Bytes t).map (a :: ·) := by
  cases t <;> simp [utf8Bytes, h]

lemma utf8Bytes_two (a : Nat) (t : List Nat) (h1 : 128 ≤ a) (h2 : a < 2048) :
    utf8Bytes (a :: t)
      = (utf8Bytes t).map (fun r => (192 + a / 64) :: (128 + a % 64) :: r) := by
  have hn1 : ¬a < 128 := by omega
  cases t <;> simp [utf8Bytes, hn1, h2]

lemma utf8Bytes_three (a : Nat) (t : List Nat) (h1 : 2048 ≤ a)
    (h3 : a < 55296 ∨ 57344 ≤ a) :
    utf8Bytes (a :: t)
      = (utf8Bytes t).map
          (fun r => (224 + a / 4096) :: (128 + a / 64 % 64) :: (128 + a % 64) :: r) := by
  have hn1 : ¬a < 128 := by omega
  have hn2 : ¬a < 2048 := by omega
  cases t <;> simp [utf8Bytes, hn1, hn2, h3]

lemma utf8Bytes_pair (a low : Nat) (t : List Nat) (h1 : 55296 ≤ a) (h2 : a < 56320)
    (h3 : 56320 ≤ low) (h4 : low < 57344) :
    utf8Bytes (a :: low :: t)
      = (utf8Bytes t).map (fun r =>
          (240 + (65536 + (a - 55296) * 1024 + (low - 56320)) / 262144)
            :: (128 + (65536 + (a - 55296) * 1024 + (low - 56320)) / 4096 % 64)
            :: (128 + (65536 + (a - 55296) * 1024 + (low - 56320)) / 64 % 64)
            :: (128 + (65536 + (a - 55296) * 1024 + (low - 56320)) % 64) :: r) := by
  have hn1 : ¬a < 128 := by omega
  have hn2 : ¬a < 2048 := by omega
  have hn3 : ¬(a < 55296 ∨ 57344 ≤ a) := by omega
  have hlow : 56320 ≤ low ∧ low < 57344 := ⟨h3, h4⟩
  simp [utf8Bytes, hn1, hn2, hn3, h2, hlow]

set_option maxHeartbeats 1600000 in
lemma utf8Units_ascii (b : Nat) (t : List Nat) (h : b < 128) :
    utf8Units (b :: t) = (utf8Units t).map (b :: ·) := by
  rw [utf8Units, if_pos h]

set_option maxHeartbeats 1600000 in
lemma utf8Units_two (b c : Nat) (t : List Nat) (h1 : 192 ≤ b) (h2 : b < 224)
    (hc : 128 ≤ c ∧ c < 192) (hcp : 128 ≤ (b - 192) * 64 + (c - 128)) :
    utf8Units (b :: c :: t)
      = (utf8Units t).map (((b - 192) * 64 + (c - 128)) :: ·) := by
  have hn1 : ¬b < 128 := by omega
  have hn2 : ¬b < 192 := by omega
  rw [utf8Units, if_neg hn1, if_neg hn2, if_pos h2, utf8More, if_pos hc,
    if_pos (show (1 : Nat) = 1 from rfl),
    if_pos (show 128 ≤ (b - 192) * 64 + (c - 128)
      ∧ ((b - 192) * 64 + (c - 128) < 55296 ∨ 57344 ≤ (b - 192) * 64 + (c - 128))
      ∧ (b - 192) * 64 + (c - 128) < 1114112 by omega),
    if_pos (show (b - 192) * 64 + (c - 128) < 65536 by omega)]

set_option maxHeartbeats 1600000 in
lemma utf8Units_three (b c d : Nat) (t : List Nat) (h1 : 224 ≤ b) (h2 : b < 240)
    (hc : 128 ≤ c ∧ c < 192) (hd : 128 ≤ d ∧ d < 192)
    (hcp : 2048 ≤ (b - 224) * 4096 + (c - 128) * 64 + (d - 128)
      ∧ ((b - 224) * 4096 + (c - 128) * 64 + (d - 128) < 55296
         ∨ 57344 ≤ (b - 224) * 4096 + (c - 128) * 64 + (d - 128))) :
    utf8Units (b :: c :: d :: t)
      = (utf8Units t).map (((b - 224) * 4096 + (c - 128) * 64 + (d - 128)) :: ·) := by
  have hn1 : ¬b < 128 := by omega
  have hn2 : ¬b < 192 := by omega
  have hn3 : ¬b < 224 := by omega
  rw [utf8Units, if_neg hn1, if_neg hn2, if_neg hn3, if_pos h2, utf8More, if_pos hc,
    if_neg (show ¬(2 : Nat) = 1 by decide), utf8More, if_pos hd,
    if_pos (show (2 : Nat) - 1 = 1 from rfl),
    if_pos (show 2048 ≤ ((b - 224) * 64 + (c - 128)) * 64 + (d - 128)
      ∧ (((b - 224) * 64 + (c - 128)) * 64 + (d - 128) < 55296
          ∨ 57344 ≤ ((b - 224) * 64 + (c - 128)) * 64 + (d - 128))
      ∧ ((b - 224) * 64 + (c - 128)) * 64 + (d - 128) < 1114112 by omega),
    if_pos (show ((b - 224) * 64 + (c - 128)) * 64 + (d - 128) < 65536 by omega)]
  have harith : ((b - 224) * 64 + (c - 128)) * 64 + (d - 128)
      = (b - 224) * 4096 + (c - 128) * 64 + (d - 128) := by omega
  rw [harith]

set_option maxHeartbeats 1600000 in
lemma utf8Units_four (b c d e : Nat) (t : List Nat) (h1 : 240 ≤ b) (h2 : b < 248)
    (hc : 128 ≤ c ∧ c < 192) (hd : 128 ≤ d ∧ d < 192) (he : 128 ≤ e ∧ e < 192)
    (hcp : 65536 ≤ (b - 240) * 262144 + (c - 128) * 4096 + (d - 128) * 64 + (e - 128)
      ∧ (b - 240) * 262144 + (c - 128) * 4096 + (d - 128) * 64 + (e - 128) < 1114112) :
    utf8Units (b :: c :: d :: e :: t)
      = (utf8Units t).map (fun r =>
          (55296 + ((b - 240) * 262144 + (c - 128) * 4096 + (d - 128) * 64
              + (e - 128) - 65536) / 1024)
            :: (56320 + ((b - 240) * 262144 + (c - 128) * 4096 + (d - 128) * 64
              + (e - 128) - 65536) % 1024) :: r) := by
  have hn1 : ¬b < 128 := by omega
  have hn2 : ¬b < 192 := by omega
  have hn3 : ¬b < 224 := by omega
  have hn4 : ¬b < 240 := by omega
  have harith : ((((b - 240) * 64 + (c - 128)) * 64 + (d - 128)) * 64 + (e - 128))
      = (b - 240) * 262144 + (c - 128) * 4096 + (d - 128) * 64 + (e - 128) := by omega
  rw [utf8Units, if_neg hn1, if_neg hn2, if_neg hn3, if_neg hn4, if_pos h2, utf8More,
    if_pos hc, if_neg (show ¬(3 : Nat) = 1 by decide), utf8More, if_pos hd,
    if_neg (show ¬(3 : Nat) - 1 = 1 by decide), utf8More, if_pos he,
    if_pos (show (3 : Nat) - 1 - 1 = 1 from rfl),
    if_pos (show 65536 ≤ (((b - 240) * 64 + (c - 128)) * 64 + (d - 128)) * 64 + (e - 128)
      ∧ ((((b - 240) * 64 + (c - 128)) * 64 + (d - 128)) * 64 + (e - 128) < 55296
          ∨ 57344 ≤ (((b - 240) * 64 + (c - 128)) * 64 + (d - 128)) * 64 + (e - 128))
      ∧ (((b - 240) * 64 + (c - 128)) * 64 + (d - 128)) * 64 + (e - 128) < 1114112
      by omega),
    if_neg (show ¬(((b - 240) * 64 + (c - 128)) * 64 + (d - 128)) * 64 + (e - 128)
      < 65536 by omega), harith]

lemma utf8_roundtrip :
    ∀ s : List Nat, (∀ u ∈ s, u < 65536) →
      ∀ bs, utf8Bytes s = some bs → utf8Units bs = some s := by
  intro s
  induction s using utf8Bytes.induct with
  | case1 =>
    intro _ bs hbs
    obtain rfl : ([] : List Nat) = bs := Option.some.inj hbs
    rw [utf8Units]
  | case2 a t h ih =>
    intro hu bs hbs
    rw [utf8Bytes_ascii a t h] at hbs
    obtain ⟨r, hr, rfl⟩ := Option.map_eq_some'.mp hbs
    rw [utf8Units_ascii a r (by omega),
      ih (fun u hu2 => hu u (by simp [hu2])) r hr]
    rfl
  | case3 a t hn1 h2 ih =>
    intro hu bs hbs
    rw [utf8Bytes_two a t (by omega) h2] at hbs
    obtain ⟨r, hr, rfl⟩ := Option.map_eq_some'.mp hbs
    rw [utf8Units_two (192 + a / 64) (128 + a % 64) r (by omega) (by omega)
      ⟨by omega, by omega⟩ (by omega),
      ih (fun u hu2 => hu u (by simp [hu2])) r hr]
    have heq : (192 + a / 64 - 192) * 64 + (128 + a % 64 - 128) = a := by omega
    rw [heq]
    rfl
  | case4 a t hn1 hn2 h3 ih =>
    intro hu bs hbs
    have ha : a < 65536 := hu a (by simp)
    rw [utf8Bytes_three a t (by omega) h3] at hbs
    obtain ⟨r, hr, rfl⟩ := Option.map_eq_some'.mp hbs
    rw [utf8Units_three (224 + a / 4096) (128 + a / 64 % 64) (128 + a % 64) r
      (by omega) (by omega) ⟨by omega, by omega⟩ ⟨by omega, by omega⟩ (by omega),
      ih (fun u hu2 => hu u (by simp [hu2])) r hr]
    have heq : (224 + a / 4096 - 224) * 4096 + (128 + a / 64 % 64 - 128) * 64
        + (128 + a % 64 - 128) = a := by omega
    rw [heq]
    rfl
  | case5 a hn1 hn2 hn3 h4 low rest2 hlow ih =>
    intro hu bs hbs
    rw [utf8Bytes_pair a low rest2 (by omega) h4 hlow.1 hlow.2] at hbs
    obtain ⟨r, hr, rfl⟩ := Option.map_eq_some'.mp hbs
    have hcb : 65536 + (a - 55296) * 1024 + (low - 56320) < 1114112 := by omega
    rw [utf8Units_four
      (240 + (65536 + (a - 55296) * 1024 + (low - 56320)) / 262144)
      (128 + (65536 + (a - 55296) * 1024 + (low - 56320)) / 4096 % 64)
      (128 + (65536 + (a - 55296) * 1024 + (low - 56320)) / 64 % 64)
      (128 + (65536 + (a - 55296) * 1024 + (low - 56320)) % 64) r
      (by omega) (by omega) ⟨by omega, by omega⟩ ⟨by omega, by omega⟩
      ⟨by omega, by omega⟩ ⟨by omega, by omega⟩,
      ih (fun u hu2 => hu u (by simp [hu2])) r hr]
    have he1 : 55296 + ((240 + (65536 + (a - 55296) * 1024 + (low - 56320)) / 262144
        - 240) * 262144
        + (128 + (65536 + (a - 55296) * 1024 + (low - 56320)) / 4096 % 64 - 128) * 4096
        + (128 + (65536 + (a - 55296) * 1024 + (low - 56320)) / 64 % 64 - 128) * 64
        + (128 + (65536 + (a - 55296) * 1024 + (low - 56320)) % 64 - 128)
        - 65536) / 1024 = a := by omega
    have he2 : 56320 + ((240 + (65536 + (a - 55296) * 1024 + (low - 56320)) / 262144
        - 240) * 262144
        + (128 + (65536 + (a - 55296) * 1024 + (low - 56320)) / 4096 % 64 - 128) * 4096
        + (128 + (65536 + (a - 55296) * 1024 + (low - 56320)) / 64 % 64 - 128) * 64
        + (128 + (65536 + (a - 55296) * 1024 + (low - 56320)) % 64 - 128)
        - 65536) % 1024 = low := by omega
    rw [he1, he2]
    rfl
  | case6 a hn1 hn2 hn3 h4 low rest2 hlow =>
    intro hu bs hbs
    have hna : ¬(a < 55296 ∨ 57344 ≤ a) := hn3
    simp [utf8Bytes, hn1, hn2, hna, h4, hlow] at hbs
  | case7 a hn1 hn2 hn3 h4 =>
    intro hu bs hbs
    simp [utf8Bytes, hn1, hn2, hn3, h4] at hbs
  | case8 a t hn1 hn2 hn3 hn4 =>
    intro hu bs hbs
    cases t with
    | nil => simp [utf8Bytes, hn1, hn2, hn3, hn4] at hbs
    | cons x t2 => simp [utf8Bytes, hn1, hn2, hn3, hn4] at hbs

/-! ### Claim theorems (base64 roundtrip) -/

/-- C7 (amended): for every well-formed UTF-16 string (no lone surrogate —
on a lone surrogate `encodeURIComponent` throws `URIError`, see the
counterexample), `base64Decode (base64Encode x) = x`, including strings with
code points above 255, which travel through the UTF-8-safe escaping. -/
theorem C7_base64_roundtrip :
    ∀ x e : List Nat, (∀ u ∈ x, u < 65536) → base64Encode x = some e →
      base64Decode e = some x := by
  intro x e hu henc
  unfold base64Encode at henc
  obtain ⟨bs, hbs, hbt⟩ := Option.bind_eq_some.mp henc
  unfold base64Decode
  rw [atob_btoa _ _ hbt, Option.some_bind]
  exact utf8_roundtrip x hu bs hbs

/-- C7 witness: the roundtrip theorem applied to "hé😊" (code units 104,
233, then the surrogate pair 55357/56842), whose encoding is
"aMOp8J+Yig==". -/
theorem C7_base64_roundtrip_witness :
    base64Decode [97, 77, 79, 112, 56, 74, 43, 89, 105, 103, 61, 61]
      = some [104, 233, 55357, 56842] :=
  C7_base64_roundtrip [104, 233, 55357, 56842]
    [97, 77, 79, 112, 56, 74, 43, 89, 105, 103, 61, 61] (by decide) (by rfl)

/-- C7 counterexample: the claim quantifies over every string, but on the
lone high surrogate U+D800 `encodeURIComponent` throws `URIError`, so
`base64Encode` fails instead of producing a string to decode. -/
theorem C7_counterexample : base64Encode [55296] = none := by rfl

/-! ### Claim theorems (hex / binary decoders) -/

/-- C5: the decoders never throw.  `parseInt` yields `NaN` (never an
exception) on invalid digits, and `String.fromCharCode(NaN)` is `"\u0000"`,
so the `try/catch` is dead code: `hexToText "zz"` is `"\u0000"`,
`binaryToText "abc"` is `"\u0000"`, and the ill-formed three-digit group
`"123"` decodes to the single character U+0123 instead of failing. -/
theorem C5_decoders_never_fail :
    hexToText [122, 122] = [0]
      ∧ binaryToText [97, 98, 99] = [0]
      ∧ hexToText [49, 50, 51] = [291] :=
  ⟨rfl, rfl, rfl⟩

/-! ### Claim theorems (autoDetectCipher) -/

/-- C1 (amended): `autoDetectCipher` classifies by the regex checks in the
fixed priority order Base64, binary, hex, palindrome, letters-only, unknown;
`"aGVsbG8="` and `"01001000 01101001"` give "Base64" and "Binary" as the
claim states, but `"hello"` gives "Base64", not the letters-only label,
because a space-free all-letter string already matches the Base64 pattern,
which runs first. -/
theorem C1_autodetect_order :
    (∀ s, base64Pat s = true → autoDetectCipher s = "Base64")
    ∧ (∀ s, base64Pat s = false → binaryPat s = true → autoDetectCipher s = "Binary")
    ∧ (∀ s, base64Pat s = false → binaryPat s = false → hexPat s = true →
        autoDetectCipher s = "Hexadecimal")
    ∧ (∀ s, base64Pat s = false → binaryPat s = false → hexPat s = false →
        s = s.reverse → autoDetectCipher s = "Reversed")
    ∧ (∀ s, base64Pat s = false → binaryPat s = false → hexPat s = false →
        s ≠ s.reverse → lettersPat s = true →
        autoDetectCipher s = "Possible Caesar/ROT13")
    ∧ (∀ s, base64Pat s = false → binaryPat s = false → hexPat s = false →
        s ≠ s.reverse → lettersPat s = false →
        autoDetectCipher s = "Unknown/Custom Encryption")
    ∧ autoDetectCipher [97, 71, 86, 115, 98, 71, 56, 61] = "Base64"
    ∧ autoDetectCipher [48, 49, 48, 48, 49, 48, 48, 48, 32,
        48, 49, 49, 48, 49, 48, 48, 49] = "Binary"
    ∧ autoDetectCipher [104, 101, 108, 108, 111] = "Base64" := by
  refine ⟨fun s h1 => ?_, fun s h1 h2 => ?_, fun s h1 h2 h3 => ?_,
    fun s h1 h2 h3 h4 => ?_, fun s h1 h2 h3 h4 h5 => ?_,
    fun s h1 h2 h3 h4 h5 => ?_, rfl, rfl, rfl⟩
  · unfold autoDetectCipher
    rw [if_pos h1]
  · unfold autoDetectCipher
    rw [if_neg (by simp [h1]), if_pos h2]
  · unfold autoDetectCipher
    rw [if_neg (by simp [h1]), if_neg (by simp [h2]), if_pos h3]
  · unfold autoDetectCipher
    rw [if_neg (by simp [h1]), if_neg (by simp [h2]), if_neg (by simp [h3]), if_pos h4]
  · unfold autoDetectCipher
    rw [if_neg (by simp [h1]), if_neg (by simp [h2]), if_neg (by simp [h3]),
      if_neg h4, if_pos h5]
  · unfold autoDetectCipher
    rw [if_neg (by simp [h1]), if_neg (by simp [h2]), if_neg (by simp [h3]),
      if_neg h4, if_neg (by simp [h5])]

/-- C1 witness: the order theorem's binary clause applied to "01 10". -/
theorem C1_autodetect_order_witness :
    autoDetectCipher [48, 49, 32, 49, 48] = "Binary" :=
  C1_autodetect_order.2.1 [48, 49, 32, 49, 48] (by decide) (by decide)

/-- C1 counterexample: the claim says `autoDetectCipher("hello")` returns
the letters-only label, but "hello" already matches the Base64 regex
`^[A-Za-z0-9+/]*={0,2}$` (the first check), so the result is "Base64". -/
theorem C1_counterexample :
    autoDetectCipher [104, 101, 108, 108, 111] = "Base64"
      ∧ autoDetectCipher [104, 101, 108, 108, 111] ≠ "Possible Caesar/ROT13" := by
  constructor
  · rfl
  · decide

/-! ### Helper lemmas for steganography -/

lemma setRedLSB_mod2 (r : Nat) (bo : Bool) :
    setRedLSB r bo % 2 = if bo then 1 else 0 := by
  unfold setRedLSB
  cases bo with
  | false =>
    simp only [Bool.false_eq_true, if_false, Nat.or_zero]
    have h1 := Nat.testBit_land r 254 0
    have h2 : (254 : Nat).testBit 0 = false := by decide
    rw [h2, Bool.and_false, Nat.testBit_zero] at h1
    have h3 := of_decide_eq_false h1
    omega
  | true =>
    simp only [if_true]
    have h1 := Nat.testBit_lor (r &&& 254) 1 0
    have h2 : (1 : Nat).testBit 0 = true := by decide
    rw [h2, Bool.or_true, Nat.testBit_zero] at h1
    have h3 := of_decide_eq_true h1
    omega

lemma setRedLSB_beq (r : Nat) (bo : Bool) : (setRedLSB r bo % 2 == 1) = bo := by
  rw [setRedLSB_mod2]
  cases bo <;> rfl

set_option maxRecDepth 8192 in
lemma setRedLSB_byte :
    ∀ r : Nat, r < 256 → ∀ bo : Bool,
      setRedLSB r bo / 2 = r / 2 ∧ setRedLSB r bo < 256 := by decide

lemma redLSBs_length : ∀ data : List Nat, (redLSBs data).length = (data.length + 3) / 4 := by
  intro data
  induction data using redLSBs.induct with
  | case1 r x1 x2 x3 rest ih =>
    simp only [redLSBs, List.length_cons, ih]
    omega
  | case2 r tail hne =>
    cases tail with
    | nil =>
      rw [show redLSBs [r] = [r % 2 == 1] from rfl]
      simp
    | cons g t2 =>
      cases t2 with
      | nil =>
        rw [show redLSBs [r, g] = [r % 2 == 1] from rfl]
        simp
      | cons b t3 =>
        cases t3 with
        | nil =>
          rw [show redLSBs [r, g, b] = [r % 2 == 1] from rfl]
          simp
        | cons a t4 => exact absurd rfl (hne g b a t4)
  | case3 => simp [redLSBs]

lemma redLSBs_embedBits : ∀ (data : List Nat) (bits : List Bool),
    redLSBs (embedBits data bits)
      = bits.take (redLSBs data).length ++ (redLSBs data).drop bits.length := by
  intro data bits
  induction data, bits using embedBits.induct with
  | case1 data => simp [embedBits]
  | case2 bits hne =>
    cases bits with
    | nil => exact absurd rfl hne
    | cons b bs => simp [embedBits, redLSBs]
  | case3 r g b a rest bit bits ih =>
    simp only [embedBits, redLSBs, setRedLSB_beq, List.length_cons, List.take_succ_cons,
      List.drop_succ_cons, ih, List.cons_append]
  | case4 r rest bit bits h =>
    cases rest with
    | nil => simp [embedBits, redLSBs, setRedLSB_beq]
    | cons g rest2 =>
      cases rest2 with
      | nil => simp [embedBits, redLSBs, setRedLSB_beq]
      | cons b rest3 =>
        cases rest3 with
        | nil => simp [embedBits, redLSBs, setRedLSB_beq]
        | cons a rest4 => exact absurd rfl (h g b a rest4)

lemma embedBits_frame : ∀ (data : List Nat) (bits : List Bool), (∀ x ∈ data, x < 256) →
    (embedBits data bits).length = data.length
    ∧ ∀ i : Nat, (i % 4 ≠ 0 → (embedBits data bits).getD i 0 = data.getD i 0)
        ∧ (embedBits data bits).getD i 0 / 2 = data.getD i 0 / 2 := by
  intro data bits
  induction data, bits using embedBits.induct with
  | case1 data =>
    intro _
    exact ⟨by rw [embedBits], fun i => ⟨fun _ => by rw [embedBits], by rw [embedBits]⟩⟩
  | case2 bits hne =>
    intro _
    cases bits with
    | nil => exact absurd rfl hne
    | cons b bs => exact ⟨rfl, fun i => ⟨fun _ => rfl, rfl⟩⟩
  | case3 r g b a rest bit bits ih =>
    intro h
    have hr := setRedLSB_byte r (h r (by simp)) bit
    have ih' := ih fun x hx => h x (by simp [hx])
    refine ⟨by simp [embedBits, ih'.1], fun i => ?_⟩
    match i with
    | 0 => exact ⟨fun hi => absurd rfl hi, by simp [embedBits, hr.1]⟩
    | 1 => exact ⟨fun _ => by simp [embedBits], by simp [embedBits]⟩
    | 2 => exact ⟨fun _ => by simp [embedBits], by simp [embedBits]⟩
    | 3 => exact ⟨fun _ => by simp [embedBits], by simp [embedBits]⟩
    | (j + 4) =>
      have hg := ih'.2 j
      have hmod : (j + 4) % 4 = j % 4 := by omega
      refine ⟨fun hi => ?_, ?_⟩
      · have : j % 4 ≠ 0 := by omega
        simpa [embedBits, List.getD_cons_succ] using hg.1 this
      · simpa [embedBits, List.getD_cons_succ] using hg.2
  | case4 r rest bit bits hne =>
    intro h
    have hr := setRedLSB_byte r (h r (by simp)) bit
    have hlen : (embedBits (r :: rest) (bit :: bits)).length = (r :: rest).length := by
      cases rest with
      | nil => rfl
      | cons g rest2 =>
        cases rest2 with
        | nil => rfl
        | cons b rest3 =>
          cases rest3 with
          | nil => rfl
          | cons a rest4 => exact absurd rfl (hne g b a rest4)
    have hemb : embedBits (r :: rest) (bit :: bits) = setRedLSB r bit :: rest := by
      cases rest with
      | nil => rfl
      | cons g rest2 =>
        cases rest2 with
        | nil => rfl
        | cons b rest3 =>
          cases rest3 with
          | nil => rfl
          | cons a rest4 => exact absurd rfl (hne g b a rest4)
    refine ⟨hlen, fun i => ?_⟩
    rw [hemb]
    match i with
    | 0 => exact ⟨fun hi => absurd rfl hi, by simp [hr.1]⟩
    | (j + 1) => exact ⟨fun _ => by simp [List.getD_cons_succ], by simp [List.getD_cons_succ]⟩

/-! ### Claim theorems (steganography) -/

/-- C9: `hideTextInImage` keeps width, height, and buffer length, changes no
byte at an index not divisible by 4 (green, blue, alpha), and preserves the
upper seven bits of every red byte — only red-channel least-significant bits
can differ.  The input buffer itself is untouched: the code writes into a
fresh `Uint8ClampedArray` copy, which the pure model reflects by returning a
new `ImageData`. -/
theorem C9_red_lsb_only :
    ∀ (img : ImageData) (text : List Nat), (∀ x ∈ img.data, x < 256) →
      (hideTextInImage img text).width = img.width
      ∧ (hideTextInImage img text).height = img.height
      ∧ (hideTextInImage img text).data.length = img.data.length
      ∧ ∀ i : Nat,
          (i % 4 ≠ 0 → (hideTextInImage img text).data.getD i 0 = img.data.getD i 0)
          ∧ (hideTextInImage img text).data.getD i 0 / 2 = img.data.getD i 0 / 2 := by
  intro img text h
  have hf := embedBits_frame img.data (messageBits text) h
  exact ⟨rfl, rfl, hf.1, hf.2⟩

/-- C9 witness: the frame theorem applied to a one-pixel image and "H":
byte 1 (green) is unchanged. -/
theorem C9_red_lsb_only_witness :
    (hideTextInImage ⟨[10, 20, 30, 40], 1, 1⟩ [72]).data.getD 1 0
      = (⟨[10, 20, 30, 40], 1, 1⟩ : ImageData).data.getD 1 0 :=
  ((C9_red_lsb_only ⟨[10, 20, 30, 40], 1, 1⟩ [72] (by decide)).2.2.2 1).1 (by decide)

/-- C3 counterexample: embedding "A" (payload 8 bits plus 16 marker bits)
into a one-pixel buffer returns a normal `ImageData` with just the first bit
written — no `CapacityError` is raised anywhere in the code. -/
theorem C3_counterexample :
    hideTextInImage ⟨[255, 255, 255, 255], 1, 1⟩ [65] = ⟨[254, 255, 255, 255], 1, 1⟩
      ∧ (messageBits [65]).length = 24 :=
  ⟨rfl, rfl⟩

/-- C3 (amended): when the buffer has fewer red-channel slots than payload
plus marker bits, `hideTextInImage` silently truncates: it returns normally
and the red-LSB stream holds exactly the first `slots` bits of the
message. -/
theorem C3_capacity_truncates :
    ∀ (img : ImageData) (text : List Nat),
      (redLSBs img.data).length < (messageBits text).length →
        redLSBs (hideTextInImage img text).data
          = (messageBits text).take (redLSBs img.data).length := by
  intro img text h
  show redLSBs (embedBits img.data (messageBits text)) = _
  rw [redLSBs_embedBits, List.drop_eq_nil_of_le (by omega), List.append_nil]

/-- C3 witness: the truncation theorem applied to the one-pixel image. -/
theorem C3_capacity_truncates_witness :
    redLSBs (hideTextInImage ⟨[255, 255, 255, 255], 1, 1⟩ [65]).data
      = (messageBits [65]).take (redLSBs [255, 255, 255, 255]).length :=
  C3_capacity_truncates ⟨[255, 255, 255, 255], 1, 1⟩ [65] (by decide)

set_option maxRecDepth 4000 in
/-- C8: for every RGBA buffer with at least 56 pixels (224 bytes), hiding
"HELLO" and extracting returns exactly "HELLO": the embedded stream is the
40 payload bits followed by the 16-bit end marker, the marker's first
occurrence in the red-LSB stream is at index 40 regardless of the trailing
original bits, and the 40 bits before it decode MSB-first to "HELLO". -/
theorem C8_stego_roundtrip :
    ∀ img : ImageData, 224 ≤ img.data.length →
      extractTextFromImage (hideTextInImage img [72, 69, 76, 76, 79])
        = some [72, 69, 76, 76, 79] := by
  intro img hlen
  have h56 : (messageBits [72, 69, 76, 76, 79]).length = 56 := rfl
  have hslots : 56 ≤ (redLSBs img.data).length := by
    rw [redLSBs_length]
    omega
  have hle : (messageBits [72, 69, 76, 76, 79]).length ≤ (redLSBs img.data).length := by
    rw [h56]
    exact hslots
  have hred : redLSBs (hideTextInImage img [72, 69, 76, 76, 79]).data
      = messageBits [72, 69, 76, 76, 79] ++ (redLSBs img.data).drop 56 := by
    show redLSBs (embedBits img.data (messageBits [72, 69, 76, 76, 79])) = _
    rw [redLSBs_embedBits, List.take_of_length_le hle, h56]
  unfold extractTextFromImage
  rw [hred,
    show findMarkerIdx (messageBits [72, 69, 76, 76, 79] ++ (redLSBs img.data).drop 56)
      = some 40 from rfl]
  rfl

/-- C8 witness: the roundtrip theorem applied to an all-black 8x7 image. -/
theorem C8_stego_roundtrip_witness :
    extractTextFromImage (hideTextInImage ⟨List.replicate 224 0, 8, 7⟩ [72, 69, 76, 76, 79])
      = some [72, 69, 76, 76, 79] :=
  C8_stego_roundtrip ⟨List.replicate 224 0, 8, 7⟩
    (by rw [show (⟨List.replicate 224 0, 8, 7⟩ : ImageData).data = List.replicate 224 0
        from rfl, List.length_replicate])

end Messenger
